import Mathlib

/-!
Shallow embedding of `update_rating.py`, a single-file batch job that
fetches a chess rating, merges it into a 30-day JSON history, renders an
SVG trend chart and regenerates a README.

Modelling conventions:
* A history entry (`{'date': ..., 'rating': ..., 'updated': ...}`) is the
  structure `Entry`; dates are the `%Y-%m-%d` strings the program
  compares lexicographically by code point (`strLe` below is exactly
  Python's `str` comparison).
* `datetime.now()`-derived values (`today`, the ISO timestamp, the cutoff
  string `(now - 30 days).strftime('%Y-%m-%d')`) are explicit parameters.
* The filesystem (history JSON, SVG file, README) is the record `World`;
  file contents are kept in decoded form (the parsed entry list, the list
  of plotted pixel coordinates, the README text).
* Python `//` on ints is floor division, embedded as `Int.fdiv`.
* `history.sort(key=lambda x: x['date'])` is a stable sort by date; the
  result of a stable sort is uniquely determined by the key order, so it
  is embedded as the (stable) insertion sort by date.
-/

structure Entry where
  date : String
  rating : Int
  updated : String
deriving DecidableEq

instance : Inhabited Entry := ⟨⟨"", 0, ""⟩⟩

/-- the constant `GRAPH_FILE = "rating_trend.svg"` (line 11). -/
def GRAPH_FILE : String := "rating_trend.svg"

/-- Lexicographic comparison of character lists by code point: `[] ≤ l`;
a longer list is above its proper prefixes; otherwise compare heads and
recurse on ties. This is exactly Python `str.__le__`. -/
def charListLe : List Char → List Char → Bool
  | [], _ => true
  | _ :: _, [] => false
  | a :: as, b :: bs => if a < b then true else if b < a then false else charListLe as bs

/-- Python string comparison `s1 <= s2` (lexicographic by code point). -/
def strLe (a b : String) : Bool := charListLe a.data b.data

/-- Comparison used by `history.sort(key=lambda x: x['date'])` (line 51). -/
def dateLe (a b : Entry) : Prop := strLe a.date b.date = true

instance : DecidableRel dateLe :=
  fun a b => inferInstanceAs (Decidable (strLe a.date b.date = true))

theorem charListLe_refl : ∀ l : List Char, charListLe l l = true := by
  intro l
  induction l with
  | nil => rfl
  | cons a as ih => simp [charListLe, lt_irrefl, ih]

theorem charListLe_total : ∀ l1 l2 : List Char,
    charListLe l1 l2 = true ∨ charListLe l2 l1 = true := by
  intro l1
  induction l1 with
  | nil => intro l2; left; rfl
  | cons a as ih =>
    intro l2
    cases l2 with
    | nil => right; rfl
    | cons b bs =>
      rcases lt_trichotomy a b with hab | hab | hab
      · left; simp [charListLe, hab]
      · subst hab
        rcases ih bs with h | h
        · left; simp [charListLe, lt_irrefl, h]
        · right; simp [charListLe, lt_irrefl, h]
      · right; simp [charListLe, hab]

theorem charListLe_trans : ∀ l1 l2 l3 : List Char,
    charListLe l1 l2 = true → charListLe l2 l3 = true → charListLe l1 l3 = true := by
  intro l1
  induction l1 with
  | nil => intro l2 l3 _ _; rfl
  | cons a as ih =>
    intro l2 l3 h12 h23
    cases l2 with
    | nil => simp [charListLe] at h12
    | cons b bs =>
      cases l3 with
      | nil => simp [charListLe] at h23
      | cons c cs =>
        simp only [charListLe] at h12 h23 ⊢
        rcases lt_trichotomy a b with hab | hab | hab
        · rcases lt_trichotomy b c with hbc | hbc | hbc
          · simp [lt_trans hab hbc]
          · subst hbc; simp [hab]
          · simp [hab, not_lt_of_gt hab] at h12
            simp [hbc, not_lt_of_gt hbc] at h23
        · subst hab
          rcases lt_trichotomy a c with hac | hac | hac
          · simp [hac]
          · subst hac
            simp [lt_irrefl] at h12 h23 ⊢
            exact ih _ _ h12 h23
          · simp [hac, not_lt_of_gt hac] at h23
        · simp [hab, not_lt_of_gt hab] at h12

instance : IsTotal Entry dateLe := ⟨fun a b => charListLe_total a.date.data b.date.data⟩

instance : IsTrans Entry dateLe :=
  ⟨fun _ _ _ h1 h2 => charListLe_trans _ _ _ h1 h2⟩

/-- the stable sort `history.sort(key=lambda x: x['date'])` (line 51). -/
def sortByDate (l : List Entry) : List Entry := List.insertionSort dateLe l

/-- the `for entry in history: ... break / else: history.append(...)` block of
`add_today_rating` (lines 39-49): the first entry whose date is `today` gets
its rating and updated-timestamp overwritten; if none matches, a fresh entry
is appended at the end. -/
def upsert (history : List Entry) (r : Int) (today nowIso : String) : List Entry :=
  match history with
  | [] => [⟨today, r, nowIso⟩]
  | e :: rest =>
    if e.date = today then { e with rating := r, updated := nowIso } :: rest
    else e :: upsert rest r today nowIso

/-- the pruning comprehension `[entry for entry in history if entry['date'] >= cutoff_str]`
(lines 55 and 163). -/
def cleaned (history : List Entry) (cutoffStr : String) : List Entry :=
  history.filter (fun e => strLe cutoffStr e.date)

/-- `add_today_rating(history, rating)` (lines 33-60); `today`, `nowIso` and
`cutoffStr` are the values the function derives from `datetime.now()`. -/
def add_today_rating (history : List Entry) (rating : Option Int)
    (today nowIso cutoffStr : String) : List Entry :=
  match rating with
  | none => history
  | some r =>
    let merged := upsert history r today nowIso
    let pruned := cleaned (sortByDate merged) cutoffStr
    if pruned.length > 30 then pruned.drop (pruned.length - 30) else pruned

/-- Filesystem state: the decoded history JSON (`none` = file absent), the
chart file (kept as the list of plotted point coordinates) and the README. -/
structure World where
  historyFile : Option (List Entry)
  chartFile : Option (List (Int × Int))
  readme : Option String
deriving DecidableEq

/-- `load_history()` (lines 23-27): the decoded array if the file exists,
else the empty list. -/
def load_history (w : World) : List Entry :=
  match w.historyFile with
  | some h => h
  | none => []

/-- `save_history(history)` (lines 29-31). -/
def save_history (w : World) (history : List Entry) : World :=
  { w with historyFile := some history }

/-- `cleanup_old_data()` (lines 157-170): when the file exists and pruning
removed something, the pruned list is saved and returned; otherwise it falls
through to `return load_history()`. -/
def cleanup_old_data (w : World) (cutoffStr : String) : World × List Entry :=
  match w.historyFile with
  | some h =>
    let ch := cleaned h cutoffStr
    if ch.length ≠ h.length then (save_history w ch, ch)
    else (w, load_history w)
  | none => (w, load_history w)

/-- `width = 1000` (line 69). -/
def width : Int := 1000

/-- `height = 500` (line 70). -/
def height : Int := 500

/-- `margin = 60` (line 71). -/
def margin : Int := 60

/-- the list `ratings = [entry['rating'] for entry in history]` (line 67). -/
def ratingsOf (history : List Entry) : List Int := history.map (fun e => e.rating)

/-- Python `min` on a list of ints (the empty case never arises: the caller
guards on a non-empty list). -/
def listMin : List Int → Int
  | [] => 0
  | x :: xs => xs.foldl min x

/-- Python `max` on a list of ints (the empty case never arises: the caller
guards on a non-empty list). -/
def listMax : List Int → Int
  | [] => 0
  | x :: xs => xs.foldl max x

/-- `min_rating = min(ratings) - 50` (line 73). -/
def min_rating (history : List Entry) : Int := listMin (ratingsOf history) - 50

/-- `max_rating = max(ratings) + 50` (line 74). -/
def max_rating (history : List Entry) : Int := listMax (ratingsOf history) + 50

/-- `rating_range = max_rating - min_rating` (line 75). -/
def rating_range (history : List Entry) : Int := max_rating history - min_rating history

/-- `x = margin + (i * (width - 2*margin) // (len(dates) - 1))` (line 96),
for a history of length `n`. -/
def xCoord (n i : Nat) : Int :=
  margin + Int.fdiv ((i : Int) * (width - 2 * margin)) ((n : Int) - 1)

/-- `y = margin + ((max_rating - rating) * (height - 2*margin) // rating_range)`
(lines 97 and 109). -/
def yCoord (history : List Entry) (r : Int) : Int :=
  margin + Int.fdiv ((max_rating history - r) * (height - 2 * margin)) (rating_range history)

/-- the `points` list built by `for i, (date, rating) in enumerate(zip(dates, ratings))`
(lines 94-98). -/
def svgPoints (history : List Entry) : List (Int × Int) :=
  history.enum.map (fun p => (xCoord history.length p.1, yCoord history p.2.rating))

/-- `create_svg_graph(history)` (lines 62-133): `none` models `return False`
with no file written; `some pts` models `return True` having written the SVG,
recorded by the point coordinates it plots (the `len > 1` polyline branch, or
the single centred point of the one-entry branch, lines 107-111). -/
def create_svg_graph (history : List Entry) : Option (List (Int × Int)) :=
  if history.length < 1 then none
  else if history.length > 1 then some (svgPoints history)
  else some [(Int.fdiv width 2, yCoord history (history.headD default).rating)]

/-- the README f-string of `update_readme` (lines 142-152), split at the
boundaries of its interpolated values. -/
def readmeContent (current : Int) (daysTracked : Nat) (timestamp : String) : String :=
  "# Chess Rating Tracker\n\n" ++
  ("## Rapid Rating: " ++ toString current) ++ "\n\n" ++
  ("![Rating Trend](" ++ GRAPH_FILE ++ ")") ++ "\n\n" ++
  ("**Days Tracked:** " ++ toString daysTracked) ++ "  \n**Last Updated:** " ++ timestamp ++
  "\n\n*This graph shows only real rating data. Run daily to build up your historical trend!*\n"

/-- `update_readme(rating, history)` (lines 135-155): `none` models the early
`return` on an empty history (no write); otherwise the README text written,
with `current = history[-1]['rating']` and `days_tracked = len(history)`. -/
def update_readme (rating : Int) (history : List Entry) (timestamp : String) : Option String :=
  match history.getLast? with
  | none => none
  | some last => some (readmeContent last.rating history.length timestamp)

namespace UpdateRating

/-- `main()` (lines 172-203), with the fetch result and the clock-derived
strings as parameters: on `None` it returns after printing (no state change);
otherwise cleanup, merge, save, then chart and README when the chart succeeds. -/
def main (w : World) (fetched : Option Int) (today nowIso cutoffStr timestamp : String) : World :=
  match fetched with
  | none => w
  | some r =>
    let p := cleanup_old_data w cutoffStr
    let history := add_today_rating p.2 (some r) today nowIso cutoffStr
    let w2 := save_history p.1 history
    match create_svg_graph history with
    | some pts =>
      let w3 := { w2 with chartFile := some pts }
      match update_readme r history timestamp with
      | some doc => { w3 with readme := some doc }
      | none => w3
    | none => w2

end UpdateRating

/-- Substring containment (on the underlying character sequences), used to
state what the README must mention. -/
def containsStr (s pat : String) : Prop :=
  ∃ a b : List Char, s.data = a ++ (pat.data ++ b)

theorem strLe_refl (s : String) : strLe s s = true := charListLe_refl s.data

theorem strLe_trans {a b c : String} (h1 : strLe a b = true) (h2 : strLe b c = true) :
    strLe a c = true := charListLe_trans _ _ _ h1 h2

theorem mem_upsert {h : List Entry} {r : Int} {t n : String} :
    ∀ x ∈ upsert h r t n, (x.date = t ∧ x.rating = r ∧ x.updated = n) ∨ x ∈ h := by
  induction h with
  | nil =>
    intro x hx
    simp only [upsert, List.mem_singleton] at hx
    subst hx
    exact Or.inl ⟨rfl, rfl, rfl⟩
  | cons e rest ih =>
    intro x hx
    by_cases he : e.date = t
    · simp only [upsert, if_pos he, List.mem_cons] at hx
      rcases hx with rfl | hx
      · exact Or.inl ⟨he, rfl, rfl⟩
      · exact Or.inr (List.mem_cons_of_mem _ hx)
    · simp only [upsert, if_neg he, List.mem_cons] at hx
      rcases hx with rfl | hx
      · exact Or.inr (List.mem_cons_self _ _)
      · rcases ih x hx with h1 | h1
        · exact Or.inl h1
        · exact Or.inr (List.mem_cons_of_mem _ h1)

theorem upsert_today (h : List Entry) (r : Int) (t n : String) :
    ∃ e ∈ upsert h r t n, e.date = t ∧ e.rating = r := by
  induction h with
  | nil => exact ⟨⟨t, r, n⟩, by simp [upsert], rfl, rfl⟩
  | cons e rest ih =>
    by_cases he : e.date = t
    · exact ⟨{ e with rating := r, updated := n }, by simp [upsert, he], he, rfl⟩
    · obtain ⟨x, hx, hd, hr⟩ := ih
      exact ⟨x, by simp [upsert, he, hx], hd, hr⟩

theorem upsert_length_of_mem {h : List Entry} {r : Int} {t n : String}
    (hx : ∃ e ∈ h, e.date = t) : (upsert h r t n).length = h.length := by
  induction h with
  | nil => simp at hx
  | cons e rest ih =>
    by_cases he : e.date = t
    · simp [upsert, he]
    · obtain ⟨x, hmem, hd⟩ := hx
      rcases List.mem_cons.mp hmem with rfl | hmem
      · exact absurd hd he
      · simp [upsert, he, ih ⟨x, hmem, hd⟩]

theorem upsert_pairwise {h : List Entry} {r : Int} {t n : String}
    (hd : h.Pairwise (fun a b => a.date ≠ b.date)) :
    (upsert h r t n).Pairwise (fun a b => a.date ≠ b.date) := by
  induction h with
  | nil => simp [upsert]
  | cons e rest ih =>
    rcases List.pairwise_cons.mp hd with ⟨hhead, htail⟩
    by_cases he : e.date = t
    · simp only [upsert, if_pos he]
      exact List.pairwise_cons.mpr ⟨fun x hx => hhead x hx, htail⟩
    · simp only [upsert, if_neg he]
      refine List.pairwise_cons.mpr ⟨?_, ih htail⟩
      intro x hx
      rcases mem_upsert x hx with ⟨hxd, _, _⟩ | hxm
      · rw [hxd]; exact he
      · exact hhead x hxm

/-- C1: for every history list and every non-None rating, the list returned by
`add_today_rating` contains no entry whose date is strictly earlier than the
cutoff date 30 days ago (every surviving entry has `date >= cutoff_str`), and
it has length at most 30 entries. -/
theorem add_today_rating_window_and_cap (history : List Entry) (r : Int)
    (today nowIso cutoffStr : String) :
    (∀ e ∈ add_today_rating history (some r) today nowIso cutoffStr,
        strLe cutoffStr e.date = true) ∧
    (add_today_rating history (some r) today nowIso cutoffStr).length ≤ 30 := by
  simp only [add_today_rating]
  set pruned := cleaned (sortByDate (upsert history r today nowIso)) cutoffStr with hpdef
  constructor
  · intro e he
    have hmem : e ∈ pruned := by
      by_cases hl : pruned.length > 30
      · rw [if_pos hl] at he
        exact List.drop_subset _ _ he
      · rwa [if_neg hl] at he
    rw [hpdef] at hmem
    simpa [cleaned] using (List.mem_filter.mp hmem).2
  · by_cases hl : pruned.length > 30
    · rw [if_pos hl, List.length_drop]
      omega
    · rw [if_neg hl]
      omega

theorem add_today_rating_window_and_cap_witness :
    strLe "2026-09-12" "2026-10-12" = true ∧
    (add_today_rating [⟨"2026-10-10", 1500, "t"⟩] (some 1510)
        "2026-10-12" "now" "2026-09-12").length ≤ 30 :=
  ⟨(add_today_rating_window_and_cap [⟨"2026-10-10", 1500, "t"⟩] 1510
        "2026-10-12" "now" "2026-09-12").1 ⟨"2026-10-12", 1510, "now"⟩ (by decide),
   (add_today_rating_window_and_cap [⟨"2026-10-10", 1500, "t"⟩] 1510
        "2026-10-12" "now" "2026-09-12").2⟩

/-- C3: when the fetch result is `None`, `main` terminates without modifying
the history file, the chart file, or the README: the resulting state is
exactly the initial state. -/
theorem main_none_skips (w : World) (today nowIso cutoffStr timestamp : String) :
    UpdateRating.main w none today nowIso cutoffStr timestamp = w ∧
    (UpdateRating.main w none today nowIso cutoffStr timestamp).historyFile = w.historyFile ∧
    (UpdateRating.main w none today nowIso cutoffStr timestamp).chartFile = w.chartFile ∧
    (UpdateRating.main w none today nowIso cutoffStr timestamp).readme = w.readme :=
  ⟨rfl, rfl, rfl, rfl⟩

/-- C5: `load_history` returns the empty list when the history file does not
exist on disk, and returns the decoded JSON array when it does. -/
theorem load_history_spec :
    (∀ w : World, w.historyFile = none → load_history w = []) ∧
    (∀ (w : World) (h : List Entry), w.historyFile = some h → load_history w = h) := by
  constructor
  · intro w hw
    simp [load_history, hw]
  · intro w h hw
    simp [load_history, hw]

theorem load_history_spec_witness :
    load_history ⟨none, none, none⟩ = [] ∧
    load_history ⟨some [⟨"2026-10-12", 1500, "t"⟩], none, none⟩ =
      [⟨"2026-10-12", 1500, "t"⟩] :=
  ⟨load_history_spec.1 _ rfl, load_history_spec.2 _ _ rfl⟩

/-- C8: `add_today_rating` is the identity when the rating is `None`: the
history is returned unchanged, with nothing added, updated, sorted or pruned. -/
theorem add_today_rating_none_id (history : List Entry)
    (today nowIso cutoffStr : String) :
    add_today_rating history none today nowIso cutoffStr = history := rfl

/-- C4: sorted-by-date is an invariant: the list returned by
`add_today_rating` (non-None rating) is sorted by date in nondecreasing
order, and the pruning filter of `cleanup_old_data` preserves sortedness. -/
theorem add_today_rating_sorted (history : List Entry) (r : Int)
    (today nowIso cutoffStr : String) :
    (add_today_rating history (some r) today nowIso cutoffStr).Pairwise dateLe ∧
    (∀ (h2 : List Entry) (c2 : String),
      h2.Pairwise dateLe → (cleaned h2 c2).Pairwise dateLe) := by
  constructor
  · simp only [add_today_rating]
    set pruned := cleaned (sortByDate (upsert history r today nowIso)) cutoffStr with hpdef
    have hs : pruned.Pairwise dateLe := by
      rw [hpdef]
      exact List.Pairwise.filter _ (List.sorted_insertionSort dateLe _)
    by_cases hl : pruned.length > 30
    · rw [if_pos hl]
      exact hs.drop
    · rwa [if_neg hl]
  · intro h2 c2 hp
    exact List.Pairwise.filter _ hp

theorem add_today_rating_sorted_witness :
    (add_today_rating [⟨"2026-10-10", 1500, "t"⟩] (some 1510)
        "2026-10-12" "now" "2026-09-12").Pairwise dateLe ∧
    (cleaned [⟨"2026-10-01", 1, "a"⟩, ⟨"2026-10-02", 2, "b"⟩] "2026-09-12").Pairwise dateLe :=
  ⟨(add_today_rating_sorted [⟨"2026-10-10", 1500, "t"⟩] 1510
      "2026-10-12" "now" "2026-09-12").1,
   (add_today_rating_sorted [] 0 "" "" "").2
      [⟨"2026-10-01", 1, "a"⟩, ⟨"2026-10-02", 2, "b"⟩] "2026-09-12" (by decide)⟩

theorem le_foldl_max (xs : List Int) (a : Int) : a ≤ xs.foldl max a := by
  induction xs generalizing a with
  | nil => simp
  | cons x xs ih => exact le_trans (le_max_left a x) (ih (max a x))

theorem mem_le_foldl_max (xs : List Int) (a : Int) : ∀ r ∈ xs, r ≤ xs.foldl max a := by
  induction xs generalizing a with
  | nil => simp
  | cons x xs ih =>
    intro r hr
    rcases List.mem_cons.mp hr with rfl | hr
    · exact le_trans (le_max_right a r) (le_foldl_max xs (max a r))
    · exact ih (max a x) r hr

theorem le_listMax (l : List Int) : ∀ r ∈ l, r ≤ listMax l := by
  intro r hr
  cases l with
  | nil => simp at hr
  | cons x xs =>
    rcases List.mem_cons.mp hr with rfl | hr
    · exact le_foldl_max xs r
    · exact mem_le_foldl_max xs x r hr

theorem foldl_min_le (xs : List Int) (a : Int) : xs.foldl min a ≤ a := by
  induction xs generalizing a with
  | nil => simp
  | cons x xs ih => exact le_trans (ih (min a x)) (min_le_left a x)

theorem foldl_min_le_mem (xs : List Int) (a : Int) : ∀ r ∈ xs, xs.foldl min a ≤ r := by
  induction xs generalizing a with
  | nil => simp
  | cons x xs ih =>
    intro r hr
    rcases List.mem_cons.mp hr with rfl | hr
    · exact le_trans (foldl_min_le xs (min a r)) (min_le_right a r)
    · exact ih (min a x) r hr

theorem listMin_le (l : List Int) : ∀ r ∈ l, listMin l ≤ r := by
  intro r hr
  cases l with
  | nil => simp at hr
  | cons x xs =>
    rcases List.mem_cons.mp hr with rfl | hr
    · exact foldl_min_le xs r
    · exact foldl_min_le_mem xs x r hr

theorem listMin_le_listMax {l : List Int} (h : l ≠ []) : listMin l ≤ listMax l := by
  cases l with
  | nil => exact absurd rfl h
  | cons x xs =>
    exact le_trans (listMin_le (x :: xs) x (List.mem_cons_self x xs))
      (le_listMax (x :: xs) x (List.mem_cons_self x xs))

/-- C9: the coordinate computations of `create_svg_graph` never divide by
zero: for a non-empty history, `rating_range` is at least 100 (hence
positive), and the x-divisor `len(dates) - 1` is positive in the branch
taken only when the history has more than one entry. -/
theorem create_svg_graph_no_div_zero (history : List Entry) (hne : history ≠ []) :
    100 ≤ rating_range history ∧ 0 < rating_range history ∧
    (1 < history.length → 0 < (history.length : Int) - 1) := by
  have hmm : listMin (ratingsOf history) ≤ listMax (ratingsOf history) := by
    apply listMin_le_listMax
    simpa [ratingsOf] using hne
  refine ⟨?_, ?_, ?_⟩
  · simp only [rating_range, max_rating, min_rating]
    omega
  · simp only [rating_range, max_rating, min_rating]
    omega
  · intro h
    omega

theorem create_svg_graph_no_div_zero_witness :
    100 ≤ rating_range [⟨"2026-10-11", 1490, "s"⟩, ⟨"2026-10-12", 1500, "t"⟩] ∧
    0 < rating_range [⟨"2026-10-11", 1490, "s"⟩, ⟨"2026-10-12", 1500, "t"⟩] ∧
    (1 < ([⟨"2026-10-11", 1490, "s"⟩, ⟨"2026-10-12", 1500, "t"⟩] : List Entry).length →
      0 < (([⟨"2026-10-11", 1490, "s"⟩, ⟨"2026-10-12", 1500, "t"⟩] : List Entry).length : Int) - 1) :=
  create_svg_graph_no_div_zero
    [⟨"2026-10-11", 1490, "s"⟩, ⟨"2026-10-12", 1500, "t"⟩] (by decide)

theorem xCoord_lt_xCoord {n i j : Nat} (h2 : 2 ≤ n) (h30 : n ≤ 30) (hij : i < j) :
    xCoord n i < xCoord n j := by
  have hd0 : 0 < n - 1 := by omega
  have hnat : i * 880 / (n - 1) < j * 880 / (n - 1) := by
    have step1 : i * 880 / (n - 1) + 1 = (i * 880 + (n - 1)) / (n - 1) :=
      (Nat.add_div_right _ hd0).symm
    have step2 : (i * 880 + (n - 1)) / (n - 1) ≤ j * 880 / (n - 1) := by
      apply Nat.div_le_div_right
      have hj8 : (i + 1) * 880 ≤ j * 880 := Nat.mul_le_mul_right 880 hij
      omega
    omega
  have hcast : ((n : Int) - 1) = ((n - 1 : Nat) : Int) := by omega
  have e1 : ∀ m : Nat, Int.fdiv ((m : Int) * 880) ((n - 1 : Nat) : Int) =
      ((m * 880 / (n - 1) : Nat) : Int) := by
    intro m
    rw [Int.fdiv_eq_ediv _ (Int.ofNat_nonneg _), Int.ofNat_ediv]
    push_cast
    ring_nf
  have h880 : (width - 2 * margin : Int) = 880 := by norm_num [width, margin]
  simp only [xCoord, h880, hcast, e1]
  have := Int.ofNat_lt.mpr hnat
  omega

theorem yCoord_bounds (history : List Entry) (hne : history ≠ []) (r : Int)
    (hr : r ∈ ratingsOf history) :
    (60 : Int) ≤ yCoord history r ∧ yCoord history r ≤ 440 := by
  have h1 : listMin (ratingsOf history) ≤ r := listMin_le _ r hr
  have h2 : r ≤ listMax (ratingsOf history) := le_listMax _ r hr
  have hR : (0 : Int) < rating_range history := by
    have := listMin_le_listMax (l := ratingsOf history) (by simpa [ratingsOf] using hne)
    simp only [rating_range, max_rating, min_rating]
    omega
  have ht1 : (50 : Int) ≤ max_rating history - r := by
    simp only [max_rating]
    omega
  have ht2 : max_rating history - r ≤ rating_range history := by
    simp only [rating_range, max_rating, min_rating]
    omega
  have hh : (height - 2 * margin : Int) = 380 := by norm_num [height, margin]
  simp only [yCoord, hh, Int.fdiv_eq_ediv _ (le_of_lt hR)]
  have hlow : (0 : Int) ≤ (max_rating history - r) * 380 / rating_range history :=
    Int.ediv_nonneg (by nlinarith) (le_of_lt hR)
  have hup : (max_rating history - r) * 380 / rating_range history ≤ 380 := by
    calc (max_rating history - r) * 380 / rating_range history
        ≤ rating_range history * 380 / rating_range history :=
          Int.ediv_le_ediv hR (by nlinarith)
      _ = 380 := Int.mul_ediv_cancel_left 380 (ne_of_gt hR)
  refine ⟨?_, ?_⟩ <;> simp only [margin] <;> omega

/-- C6: for every history with at least 2 and at most 30 entries, the
x-coordinates computed by `create_svg_graph` are strictly increasing in list
(date) order, and every y-coordinate, computed by the linear mapping from the
range `[min(ratings)-50, max(ratings)+50]`, lies within the chart area
`[margin, height-margin] = [60, 440]`. -/
theorem create_svg_graph_coords (history : List Entry)
    (h2 : 2 ≤ history.length) (h30 : history.length ≤ 30) :
    (svgPoints history).Pairwise (fun p q => p.1 < q.1) ∧
    (∀ p ∈ svgPoints history, (60 : Int) ≤ p.2 ∧ p.2 ≤ 440) := by
  have hne : history ≠ [] := by
    intro h
    rw [h] at h2
    simp at h2
  constructor
  · rw [List.pairwise_iff_getElem]
    intro i j hi hj hij
    simp only [svgPoints, List.getElem_map, List.getElem_enum]
    exact xCoord_lt_xCoord h2 h30 hij
  · intro p hp
    simp only [svgPoints, List.mem_map] at hp
    obtain ⟨q, hq, rfl⟩ := hp
    obtain ⟨i, hi, hq'⟩ := List.mem_iff_getElem.mp hq
    have hi' : i < history.length := by simpa using hi
    rw [List.getElem_enum] at hq'
    subst hq'
    exact yCoord_bounds history hne _
      (List.mem_map.mpr ⟨history[i], List.getElem_mem _, rfl⟩)

theorem create_svg_graph_coords_witness :
    (svgPoints [⟨"2026-10-11", 1490, "s"⟩, ⟨"2026-10-12", 1500, "t"⟩]).Pairwise
      (fun p q => p.1 < q.1) ∧
    (∀ p ∈ svgPoints [⟨"2026-10-11", 1490, "s"⟩, ⟨"2026-10-12", 1500, "t"⟩],
      (60 : Int) ≤ p.2 ∧ p.2 ≤ 440) :=
  create_svg_graph_coords [⟨"2026-10-11", 1490, "s"⟩, ⟨"2026-10-12", 1500, "t"⟩]
    (by decide) (by decide)

theorem containsStr_rating (c : Int) (d : Nat) (ts : String) :
    containsStr (readmeContent c d ts) ("## Rapid Rating: " ++ toString c) := by
  refine ⟨"# Chess Rating Tracker\n\n".data,
    ("\n\n" ++ ("![Rating Trend](" ++ GRAPH_FILE ++ ")") ++ "\n\n" ++
      ("**Days Tracked:** " ++ toString d) ++ "  \n**Last Updated:** " ++ ts ++
      "\n\n*This graph shows only real rating data. Run daily to build up your historical trend!*\n").data, ?_⟩
  simp [readmeContent, String.data_append]

theorem containsStr_days (c : Int) (d : Nat) (ts : String) :
    containsStr (readmeContent c d ts) ("**Days Tracked:** " ++ toString d) := by
  refine ⟨("# Chess Rating Tracker\n\n" ++ ("## Rapid Rating: " ++ toString c) ++ "\n\n" ++
      ("![Rating Trend](" ++ GRAPH_FILE ++ ")") ++ "\n\n").data,
    ("  \n**Last Updated:** " ++ ts ++
      "\n\n*This graph shows only real rating data. Run daily to build up your historical trend!*\n").data, ?_⟩
  simp [readmeContent, String.data_append]

theorem containsStr_graph (c : Int) (d : Nat) (ts : String) :
    containsStr (readmeContent c d ts) ("![Rating Trend](" ++ GRAPH_FILE ++ ")") := by
  refine ⟨("# Chess Rating Tracker\n\n" ++ ("## Rapid Rating: " ++ toString c) ++ "\n\n").data,
    ("\n\n" ++ ("**Days Tracked:** " ++ toString d) ++ "  \n**Last Updated:** " ++ ts ++
      "\n\n*This graph shows only real rating data. Run daily to build up your historical trend!*\n").data, ?_⟩
  simp [readmeContent, String.data_append]

/-- C7: for every non-empty history, the README document written by
`update_readme` carries the rating of the last (latest) history entry as the
current rating, the number of tracked days equal to the history length, and a
reference to the chart image by its relative path `rating_trend.svg`. -/
theorem update_readme_spec (rating : Int) (history : List Entry) (timestamp : String)
    (hne : history ≠ []) :
    ∃ last, history.getLast? = some last ∧
      update_readme rating history timestamp =
        some (readmeContent last.rating history.length timestamp) ∧
      GRAPH_FILE = "rating_trend.svg" ∧
      containsStr (readmeContent last.rating history.length timestamp)
        ("## Rapid Rating: " ++ toString last.rating) ∧
      containsStr (readmeContent last.rating history.length timestamp)
        ("**Days Tracked:** " ++ toString history.length) ∧
      containsStr (readmeContent last.rating history.length timestamp)
        ("![Rating Trend](" ++ GRAPH_FILE ++ ")") := by
  obtain ⟨last, hlast⟩ : ∃ last, history.getLast? = some last :=
    Option.isSome_iff_exists.mp (List.getLast?_isSome.mpr hne)
  exact ⟨last, hlast, by simp [update_readme, hlast], rfl,
    containsStr_rating _ _ _, containsStr_days _ _ _, containsStr_graph _ _ _⟩

theorem update_readme_spec_witness :
    ∃ last, ([⟨"2026-10-12", 1500, "t"⟩] : List Entry).getLast? = some last ∧
      update_readme 1500 [⟨"2026-10-12", 1500, "t"⟩] "ts" =
        some (readmeContent last.rating ([⟨"2026-10-12", 1500, "t"⟩] : List Entry).length "ts") ∧
      GRAPH_FILE = "rating_trend.svg" ∧
      containsStr (readmeContent last.rating ([⟨"2026-10-12", 1500, "t"⟩] : List Entry).length "ts")
        ("## Rapid Rating: " ++ toString last.rating) ∧
      containsStr (readmeContent last.rating ([⟨"2026-10-12", 1500, "t"⟩] : List Entry).length "ts")
        ("**Days Tracked:** " ++ toString ([⟨"2026-10-12", 1500, "t"⟩] : List Entry).length) ∧
      containsStr (readmeContent last.rating ([⟨"2026-10-12", 1500, "t"⟩] : List Entry).length "ts")
        ("![Rating Trend](" ++ GRAPH_FILE ++ ")") :=
  update_readme_spec 1500 [⟨"2026-10-12", 1500, "t"⟩] "ts" (by simp)

theorem add_today_rating_ne_nil (history : List Entry) (r : Int)
    (today nowIso cutoffStr : String) (hcut : strLe cutoffStr today = true) :
    add_today_rating history (some r) today nowIso cutoffStr ≠ [] := by
  simp only [add_today_rating]
  set pruned := cleaned (sortByDate (upsert history r today nowIso)) cutoffStr with hpdef
  have hne : pruned ≠ [] := by
    obtain ⟨e, he, hd, _⟩ := upsert_today history r today nowIso
    have hsort : e ∈ sortByDate (upsert history r today nowIso) := by
      simp only [sortByDate, List.mem_insertionSort]
      exact he
    have hfil : e ∈ pruned := by
      rw [hpdef]
      simp only [cleaned, List.mem_filter]
      exact ⟨hsort, by rw [hd]; exact hcut⟩
    exact List.ne_nil_of_mem hfil
  by_cases hl : pruned.length > 30
  · rw [if_pos hl]
    intro hcontra
    have h30 : (pruned.drop (pruned.length - 30)).length = 30 := by
      rw [List.length_drop]
      omega
    rw [hcontra] at h30
    simp at h30
  · rwa [if_neg hl]

/-- C10: `create_svg_graph` returns `False` (writing no chart file) exactly on
the empty history and `True` (having written the chart) on every non-empty
history; consequently after a successful fetch the merged history is non-empty
and `main`'s graph-and-README stage always runs. -/
theorem create_svg_graph_total :
    create_svg_graph ([] : List Entry) = none ∧
    (∀ history : List Entry, history ≠ [] → ∃ pts, create_svg_graph history = some pts) ∧
    (∀ (w : World) (r : Int) (today nowIso cutoffStr timestamp : String),
      strLe cutoffStr today = true →
      ∃ pts doc,
        (UpdateRating.main w (some r) today nowIso cutoffStr timestamp).chartFile = some pts ∧
        (UpdateRating.main w (some r) today nowIso cutoffStr timestamp).readme = some doc) := by
  have hsome : ∀ history : List Entry, history ≠ [] →
      ∃ pts, create_svg_graph history = some pts := by
    intro history hne
    have hlen : 1 ≤ history.length := List.length_pos.mpr hne
    simp only [create_svg_graph]
    rw [if_neg (by omega)]
    by_cases h1 : history.length > 1
    · rw [if_pos h1]
      exact ⟨_, rfl⟩
    · rw [if_neg h1]
      exact ⟨_, rfl⟩
  refine ⟨rfl, hsome, ?_⟩
  intro w r today nowIso cutoffStr timestamp hcut
  have hne := add_today_rating_ne_nil (cleanup_old_data w cutoffStr).2 r
    today nowIso cutoffStr hcut
  obtain ⟨pts, hpts⟩ := hsome _ hne
  obtain ⟨last, hlast⟩ : ∃ last,
      (add_today_rating (cleanup_old_data w cutoffStr).2 (some r)
        today nowIso cutoffStr).getLast? = some last :=
    Option.isSome_iff_exists.mp (List.getLast?_isSome.mpr hne)
  refine ⟨pts, readmeContent last.rating
      (add_today_rating (cleanup_old_data w cutoffStr).2 (some r)
        today nowIso cutoffStr).length timestamp, ?_, ?_⟩ <;>
    simp only [UpdateRating.main, hpts, update_readme, hlast]

theorem create_svg_graph_total_witness :
    ∃ pts doc,
      (UpdateRating.main ⟨none, none, none⟩ (some 1500)
          "2026-10-12" "now" "2026-09-12" "ts").chartFile = some pts ∧
      (UpdateRating.main ⟨none, none, none⟩ (some 1500)
          "2026-10-12" "now" "2026-09-12" "ts").readme = some doc :=
  create_svg_graph_total.2.2 ⟨none, none, none⟩ 1500
    "2026-10-12" "now" "2026-09-12" "ts" (by decide)

theorem charListLe_antisymm : ∀ l1 l2 : List Char,
    charListLe l1 l2 = true → charListLe l2 l1 = true → l1 = l2 := by
  intro l1
  induction l1 with
  | nil =>
    intro l2 _ h21
    cases l2 with
    | nil => rfl
    | cons b bs => simp [charListLe] at h21
  | cons a as ih =>
    intro l2 h12 h21
    cases l2 with
    | nil => simp [charListLe] at h12
    | cons b bs =>
      rcases lt_trichotomy a b with hab | hab | hab
      · simp [charListLe, hab, not_lt_of_gt hab] at h21
      · subst hab
        simp only [charListLe, lt_irrefl, if_neg (lt_irrefl a), if_false] at h12 h21
        rw [ih bs h12 h21]
      · simp [charListLe, hab, not_lt_of_gt hab] at h12

theorem strLe_antisymm {a b : String} (h1 : strLe a b = true) (h2 : strLe b a = true) :
    a = b :=
  String.ext (charListLe_antisymm a.data b.data h1 h2)

theorem mem_drop_of_max {l : List Entry} {e : Entry} (he : e ∈ l)
    (hsort : l.Pairwise dateLe)
    (hdis : l.Pairwise (fun a b => a.date ≠ b.date))
    (hmax : ∀ x ∈ l, strLe x.date e.date = true)
    {k : Nat} (hk : k < l.length) : e ∈ l.drop k := by
  obtain ⟨i, hi, hie⟩ := List.mem_iff_getElem.mp he
  have hilast : i = l.length - 1 := by
    by_contra hne'
    have hij : i < l.length - 1 := by omega
    have hj : l.length - 1 < l.length := by omega
    have h1 : dateLe l[i] l[l.length - 1] :=
      List.pairwise_iff_getElem.mp hsort i (l.length - 1) hi hj hij
    have h2 : l[i].date ≠ l[l.length - 1].date :=
      List.pairwise_iff_getElem.mp hdis i (l.length - 1) hi hj hij
    have h3 : strLe l[l.length - 1].date l[i].date = true := by
      rw [hie]
      exact hmax _ (List.getElem_mem hj)
    exact h2 (strLe_antisymm h1 h3)
  apply List.mem_iff_getElem.mpr
  have hlen : i - k < (l.drop k).length := by
    rw [List.length_drop]
    omega
  refine ⟨i - k, hlen, ?_⟩
  rw [List.getElem_drop]
  have hidx : k + (i - k) = i := by omega
  simp only [hidx]
  exact hie

/-- C2 (amended): upsert-by-date, for histories none of whose entries is
dated after `today`. For every history whose entries have pairwise distinct
dates, all of them at most `today`, and every non-None rating `r`:
the list returned by `add_today_rating` contains an entry for today's date
whose rating is `r`; every returned entry for a date other than today is an
unchanged entry of the input history; and if an entry for today's date
already existed, the merge step appends nothing (it updates in place, keeping
the length). -/
theorem add_today_rating_upsert (history : List Entry) (r : Int)
    (today nowIso cutoffStr : String)
    (hdist : history.Pairwise (fun a b => a.date ≠ b.date))
    (hcut : strLe cutoffStr today = true)
    (hpast : ∀ e ∈ history, strLe e.date today = true) :
    (∃ e ∈ add_today_rating history (some r) today nowIso cutoffStr,
        e.date = today ∧ e.rating = r) ∧
    (∀ e ∈ add_today_rating history (some r) today nowIso cutoffStr,
        e.date ≠ today → e ∈ history) ∧
    ((∃ e ∈ history, e.date = today) →
      (upsert history r today nowIso).length = history.length) := by
  simp only [add_today_rating]
  set merged := upsert history r today nowIso with hmdef
  set sorted := sortByDate merged with hsdef
  set pruned := cleaned sorted cutoffStr with hpdef
  have hmem_sorted : ∀ x : Entry, x ∈ sorted ↔ x ∈ merged := by
    intro x
    rw [hsdef]
    simp [sortByDate]
  have hpruned_sub : ∀ x ∈ pruned, x ∈ merged := by
    intro x hx
    rw [hpdef] at hx
    simp only [cleaned, List.mem_filter] at hx
    exact (hmem_sorted x).mp hx.1
  obtain ⟨e0, he0m, he0d, he0r⟩ := upsert_today history r today nowIso
  have he0pruned : e0 ∈ pruned := by
    rw [hpdef]
    simp only [cleaned, List.mem_filter]
    exact ⟨(hmem_sorted e0).mpr he0m, by rw [he0d]; exact hcut⟩
  have hmax : ∀ x ∈ pruned, strLe x.date e0.date = true := by
    intro x hx
    rw [he0d]
    rcases mem_upsert x (hpruned_sub x hx) with ⟨hxd, _, _⟩ | hxh
    · rw [hxd]
      exact strLe_refl today
    · exact hpast x hxh
  have hsorted_pair : pruned.Pairwise dateLe := by
    rw [hpdef, hsdef]
    exact List.Pairwise.filter _ (List.sorted_insertionSort dateLe merged)
  have hdist_pruned : pruned.Pairwise (fun a b => a.date ≠ b.date) := by
    have h1 := upsert_pairwise (r := r) (t := today) (n := nowIso) hdist
    rw [← hmdef] at h1
    have h2 : sorted.Pairwise (fun a b => a.date ≠ b.date) := by
      rw [hsdef]
      exact h1.perm (List.perm_insertionSort dateLe merged).symm (fun h => h.symm)
    rw [hpdef]
    exact h2.filter _
  have hback : ∀ e ∈ pruned, e.date ≠ today → e ∈ history := by
    intro e he hed
    rcases mem_upsert e (hpruned_sub e he) with ⟨hd', _, _⟩ | hh
    · exact absurd hd' hed
    · exact hh
  refine ?_
  by_cases hl : pruned.length > 30
  · rw [if_pos hl]
    exact ⟨⟨e0, mem_drop_of_max he0pruned hsorted_pair hdist_pruned hmax (by omega),
        he0d, he0r⟩,
      fun e he hed => hback e (List.drop_subset _ _ he) hed,
      fun hex => upsert_length_of_mem hex⟩
  · rw [if_neg hl]
    exact ⟨⟨e0, he0pruned, he0d, he0r⟩,
      fun e he hed => hback e he hed,
      fun hex => upsert_length_of_mem hex⟩

theorem add_today_rating_upsert_witness :
    ([⟨"2026-10-10", 1500, "t"⟩] : List Entry).Pairwise (fun a b => a.date ≠ b.date) ∧
    strLe "2026-09-12" "2026-10-12" = true ∧
    (∀ e ∈ ([⟨"2026-10-10", 1500, "t"⟩] : List Entry), strLe e.date "2026-10-12" = true) ∧
    ((∃ e ∈ add_today_rating [⟨"2026-10-10", 1500, "t"⟩] (some 1510)
          "2026-10-12" "now" "2026-09-12", e.date = "2026-10-12" ∧ e.rating = 1510) ∧
      (∀ e ∈ add_today_rating [⟨"2026-10-10", 1500, "t"⟩] (some 1510)
          "2026-10-12" "now" "2026-09-12",
        e.date ≠ "2026-10-12" → e ∈ ([⟨"2026-10-10", 1500, "t"⟩] : List Entry)) ∧
      ((∃ e ∈ ([⟨"2026-10-10", 1500, "t"⟩] : List Entry), e.date = "2026-10-12") →
        (upsert [⟨"2026-10-10", 1500, "t"⟩] 1510 "2026-10-12" "now").length =
          ([⟨"2026-10-10", 1500, "t"⟩] : List Entry).length)) :=
  ⟨by decide, by decide, by decide,
    add_today_rating_upsert [⟨"2026-10-10", 1500, "t"⟩] 1510
      "2026-10-12" "now" "2026-09-12" (by decide) (by decide) (by decide)⟩

/-- the history of 30 future-dated entries used to refute C2 as stated. -/
def futureHistory : List Entry :=
  [⟨"2100-01-01", 1, ""⟩, ⟨"2100-01-02", 1, ""⟩, ⟨"2100-01-03", 1, ""⟩,
   ⟨"2100-01-04", 1, ""⟩, ⟨"2100-01-05", 1, ""⟩, ⟨"2100-01-06", 1, ""⟩,
   ⟨"2100-01-07", 1, ""⟩, ⟨"2100-01-08", 1, ""⟩, ⟨"2100-01-09", 1, ""⟩,
   ⟨"2100-01-10", 1, ""⟩, ⟨"2100-01-11", 1, ""⟩, ⟨"2100-01-12", 1, ""⟩,
   ⟨"2100-01-13", 1, ""⟩, ⟨"2100-01-14", 1, ""⟩, ⟨"2100-01-15", 1, ""⟩,
   ⟨"2100-01-16", 1, ""⟩, ⟨"2100-01-17", 1, ""⟩, ⟨"2100-01-18", 1, ""⟩,
   ⟨"2100-01-19", 1, ""⟩, ⟨"2100-01-20", 1, ""⟩, ⟨"2100-01-21", 1, ""⟩,
   ⟨"2100-01-22", 1, ""⟩, ⟨"2100-01-23", 1, ""⟩, ⟨"2100-01-24", 1, ""⟩,
   ⟨"2100-01-25", 1, ""⟩, ⟨"2100-01-26", 1, ""⟩, ⟨"2100-01-27", 1, ""⟩,
   ⟨"2100-01-28", 1, ""⟩, ⟨"2100-01-29", 1, ""⟩, ⟨"2100-01-30", 1, ""⟩]

/-- C2 as stated is false on the code: `futureHistory` has 30 pairwise
distinct dates, yet after upserting rating 1000 on 2026-10-12 the returned
list contains no entry for today's date at all — today's entry is sorted
first (its date is the smallest) and the 30-entry cap drops it. -/
theorem add_today_rating_upsert_counterexample :
    futureHistory.Pairwise (fun a b => a.date ≠ b.date) ∧
    ¬ ∃ e ∈ add_today_rating futureHistory (some 1000) "2026-10-12" "now" "2026-09-12",
        e.date = "2026-10-12" ∧ e.rating = 1000 := by
  decide
